import Mathlib

/-!
Shallow embedding of the CPU MatMul kernel
(`onnxruntime/core/providers/cpu/math/matmul.cc`): kernel registration and
dispatch per element type, the generic `MatMul<T>::Compute`, the float
specialization `MatMul<float>::Compute`, `MatMul<float>::PrePack` and
`MatMul<float>::UseCachedPrePackedWeight`.

Element values are modelled over `Int` (the arithmetic structure of the
dispatch is what the claims are about, not floating-point rounding).
Pointers are modelled as element offsets into buffers; a buffer owned
through a `BufferUniquePtr` with a null `BufferDeleter` is modelled as a
`BufferPtr` whose `owning` flag is `false`.
-/

/-- Error kinds of shape resolution (spec section 7). -/
inductive MErr
  | shapeMismatch
  | broadcastIncompatible
deriving DecidableEq, Repr

/-- Status result of `PrePack` / `UseCachedPrePackedWeight`. -/
inductive Status
  | ok
  | err (e : MErr)
deriving DecidableEq, Repr

/-- A tensor: shape plus row-major contiguous data. -/
structure TensorI where
  shape : List Nat
  data : List Int
deriving DecidableEq, Repr

/-- Reading the tensor data at a flat element offset. -/
def tensorFn (t : TensorI) : Nat → Int := fun j => t.data.getD j 0

/-- Resolved matmul descriptor produced by the shape/offset helper
(spec section 3: M, N, K, output shape, broadcast batch shape, and the
three parallel offset tables). -/
structure ResolvedDesc where
  M : Nat
  N : Nat
  K : Nat
  batchDims : List Nat
  outputShape : List Nat
  leftOffsets : List Nat
  rightOffsets : List Nat
  outputOffsets : List Nat
deriving DecidableEq, Repr

/-- Left-pad a dimension list with 1s to rank `r` (spec section 4.1 step 4). -/
def padTo (r : Nat) (l : List Nat) : List Nat :=
  List.replicate (r - l.length) 1 ++ l

/-- Pairwise broadcast of two equal-length batch-dimension lists: each pair
must be equal or contain a 1; the resolved dimension is the non-1 value
(spec section 4.1 step 4). -/
def broadcastDims : List Nat → List Nat → Option (List Nat)
  | [], [] => some []
  | a :: as, b :: bs =>
    if a = b ∨ a = 1 ∨ b = 1 then
      (broadcastDims as bs).map (fun r => (if a = 1 then b else a) :: r)
    else none
  | _, _ => none

/-- Flat element offset of batch index `i` (row-major over `batch`) inside an
operand whose padded batch dims are `opd` and whose trailing 2-D matrix block
has `block` elements: an axis where the operand dimension is 1 contributes 0
(broadcast), otherwise the iterated index times that axis's stride
(spec section 4.2). -/
def bcastOffset : List Nat → List Nat → Nat → Nat → Nat
  | [], _, _, _ => 0
  | _ :: _, [], _, _ => 0
  | d :: ds, od :: ods, block, i =>
    let rest := ds.prod
    (if od = 1 then 0 else (i / rest % d) * (ods.prod * block)) +
      bcastOffset ds ods block (i % rest)

/-- Modelled from the spec: `MatMulComputeHelper::Compute`
(`core/providers/cpu/math/matmul_helper.h`) is not included under `src/`;
this follows spec sections 4.1 (Shape Broadcast Resolver) and 4.2 (Batch
Offset Computer).  Rank-1 operands are promoted ([K] becomes [1,K] for A and
[K,1] for B), are never transposed, and contribute no batch dimensions; the
inner dimensions must match exactly; batch dimensions broadcast pairwise after
left-padding with 1s; the output shape is the resolved batch dims followed by
M and/or N, each dropped when the corresponding operand was a vector. -/
def helperCompute (shapeA shapeB : List Nat) (transA transB : Bool) :
    Except MErr ResolvedDesc :=
  if shapeA.length = 0 ∨ shapeB.length = 0 then .error .shapeMismatch
  else
    let aVec := shapeA.length = 1
    let bVec := shapeB.length = 1
    let sA := if aVec then 1 :: shapeA else shapeA
    let sB := if bVec then shapeB ++ [1] else shapeB
    let tA := transA && !aVec
    let tB := transB && !bVec
    let ra := sA.getD (sA.length - 2) 1
    let ca := sA.getD (sA.length - 1) 1
    let rb := sB.getD (sB.length - 2) 1
    let cb := sB.getD (sB.length - 1) 1
    let M := if tA then ca else ra
    let kA := if tA then ra else ca
    let kB := if tB then cb else rb
    let N := if tB then rb else cb
    if kA ≠ kB then .error .shapeMismatch
    else
      let batchA := sA.take (sA.length - 2)
      let batchB := sB.take (sB.length - 2)
      let r := max batchA.length batchB.length
      match broadcastDims (padTo r batchA) (padTo r batchB) with
      | none => .error .broadcastIncompatible
      | some batch =>
        let outputShape :=
          batch ++ (if aVec then [] else [M]) ++ (if bVec then [] else [N])
        let count := batch.prod
        let lefts :=
          (List.range count).map (bcastOffset batch (padTo r batchA) (ra * ca))
        let rights :=
          (List.range count).map (bcastOffset batch (padTo r batchB) (rb * cb))
        let outs := (List.range count).map (fun i => i * (M * N))
        .ok ⟨M, N, kA, batch, outputShape, lefts, rights, outs⟩

/-- A buffer handle: `addr` is the abstract address of the underlying
allocation; `owning = false` models a `BufferUniquePtr` built with
`BufferDeleter(nullptr)` (a non-owning alias whose destruction is a no-op). -/
structure BufferPtr where
  addr : Nat
  owning : Bool
deriving DecidableEq, Repr

/-- Kernel instance state of `MatMul<float>`: the transpose and alpha
attributes, the optional packed-B buffer `packed_b_`, and the B shape
`b_shape_` recorded when packing occurred. -/
structure KernelState where
  trans_a_attr : Bool
  trans_b_attr : Bool
  alpha_attr : Int
  packed_b : Option BufferPtr
  b_shape : List Nat
deriving DecidableEq, Repr

/-- The B pointer of a GEMM descriptor: either the shared packed buffer or
the raw B data at a per-batch offset. -/
inductive BPtr
  | packed (addr : Nat)
  | raw (off : Nat)
deriving DecidableEq, Repr

/-- One per-batch descriptor handed to the batched GEMM primitive
(`MLAS_SGEMM_DATA_PARAMS`); pointers are modelled as offsets. -/
structure SgemmParams where
  BIsPacked : Bool
  Aoff : Nat
  lda : Nat
  B : BPtr
  ldb : Nat
  Coff : Nat
  ldc : Nat
  alpha : Int
  beta : Int
deriving DecidableEq, Repr

/-- Default descriptor, used only as the `getD` fallback. -/
def pZero : SgemmParams := ⟨false, 0, 0, .raw 0, 0, 0, 0, 0, 0⟩

/-- Result of one Compute call: the resolved descriptor, the effective
transpose flags, the output shape, the descriptor list submitted to the
GEMM primitive (empty when the dispatch is skipped), and the final contents
of the output buffer as a function on element positions. -/
structure FloatResult where
  resolved : ResolvedDesc
  effTransA : Bool
  effTransB : Bool
  outputShape : List Nat
  params : List SgemmParams
  output : Nat → Int

/-- Sum of `f k * g k` for `k < K`. -/
def dotK (K : Nat) (f g : Nat → Int) : Int :=
  ((List.range K).map (fun k => f k * g k)).sum

/-- Decode output position `j` inside the `M × N` region written through
leading dimension `ldc` starting at `Coff`: the written positions are
exactly `coff + m * ldc + n` for `m < M`, `n < N` (with `ldc = N` in every
descriptor this kernel builds, the decoding is `(d / ldc, d % ldc)`). -/
def gemmPos (M N ldc coff j : Nat) : Option (Nat × Nat) :=
  if coff ≤ j ∧ 0 < ldc ∧ (j - coff) / ldc < M ∧ (j - coff) % ldc < N then
    some ((j - coff) / ldc, (j - coff) % ldc)
  else none

/-- The effect of one GEMM descriptor on the output buffer (spec section 6:
`C = alpha * op(A) · op(B) + beta * C`): a position inside the descriptor's
region receives the computed value; every other position is untouched.
`aF`/`bF` read the A and raw-B input buffers, `pH addr k n` reads entry
`(k, n)` of the implementation-specific packed buffer at `addr`. -/
def applyParam (tA tB : Bool) (M N K : Nat) (aF bF : Nat → Int)
    (pH : Nat → Nat → Nat → Int) (p : SgemmParams) (y : Nat → Int) :
    Nat → Int :=
  fun j =>
    match gemmPos M N p.ldc p.Coff j with
    | some (m, n) =>
        let aAt : Nat → Int :=
          fun k => aF (p.Aoff + if tA then k * p.lda + m else m * p.lda + k)
        let bAt : Nat → Int :=
          fun k =>
            match p.B with
            | .packed addr => pH addr k n
            | .raw off => bF (off + if tB then n * p.ldb + k else k * p.ldb + n)
        p.alpha * dotK K aAt bAt + p.beta * y j
    | none => y j

/-- The batched GEMM primitive (`MlasGemmBatch`), modelled at its interface:
the descriptors are applied to the output buffer in order. -/
def mlasGemmBatch (tA tB : Bool) (M N K : Nat) (aF bF : Nat → Int)
    (pH : Nat → Nat → Nat → Int) (ps : List SgemmParams) (y : Nat → Int) :
    Nat → Int :=
  ps.foldl (fun acc p => applyParam tA tB M N K aF bF pH p acc) y

/-- The B shape used by `MatMul<float>::Compute`: the shape recorded at pack
time when `packed_b_` is set, the raw B input's shape otherwise
(matmul.cc lines 168-169). -/
def usedBShape (st : KernelState) (bIn : TensorI) : List Nat :=
  match st.packed_b with
  | some _ => st.b_shape
  | none => bIn.shape

/-- Effective A-transpose flag: the attribute, ignored for 1-D A
(matmul.cc line 172). -/
def effectiveTransA (st : KernelState) (a : TensorI) : Bool :=
  st.trans_a_attr && !(a.shape.length = 1)

/-- Effective B-transpose flag: the attribute, ignored when the used B shape
is 1-D (matmul.cc line 173). -/
def effectiveTransB (st : KernelState) (bIn : TensorI) : Bool :=
  st.trans_b_attr && !((usedBShape st bIn).length = 1)

/-- `MatMul<float>::Compute` (matmul.cc lines 164-210): resolve shapes with
the effective transpose flags, bail out to success with no descriptors when
the output is empty, otherwise build one descriptor per batch (packed-B
buffer replacing the raw pointer when `packed_b_` is set, `beta = 0`) and
run the batched GEMM primitive.  `yInit` is the content of the freshly
allocated output buffer; `pH` reads packed buffers.

`floatParams` is the descriptor-assembly loop (matmul.cc lines 194-205):
one descriptor per batch, raw-B pointer at `rightOffsets[i]` replaced by the
single packed buffer when `packed_b_` is set, `beta = 0`. -/
def floatParams (st : KernelState) (h : ResolvedDesc) (tA tB : Bool) :
    List SgemmParams :=
  (List.range h.outputOffsets.length).map (fun i =>
    { BIsPacked := st.packed_b.isSome
      Aoff := h.leftOffsets.getD i 0
      lda := if tA then h.M else h.K
      B := match st.packed_b with
           | some pb => BPtr.packed pb.addr
           | none => BPtr.raw (h.rightOffsets.getD i 0)
      ldb := if tB then h.K else h.N
      Coff := h.outputOffsets.getD i 0
      ldc := h.N
      alpha := st.alpha_attr
      beta := 0 : SgemmParams })

def floatCompute (st : KernelState) (a bIn : TensorI) (yInit : Nat → Int)
    (pH : Nat → Nat → Nat → Int) : Except MErr FloatResult :=
  match helperCompute a.shape (usedBShape st bIn) (effectiveTransA st a)
      (effectiveTransB st bIn) with
  | .error e => .error e
  | .ok h =>
    if h.outputShape.prod = 0 then
      .ok ⟨h, effectiveTransA st a, effectiveTransB st bIn, h.outputShape,
        [], yInit⟩
    else
      .ok ⟨h, effectiveTransA st a, effectiveTransB st bIn, h.outputShape,
        floatParams st h (effectiveTransA st a) (effectiveTransB st bIn),
        mlasGemmBatch (effectiveTransA st a) (effectiveTransB st bIn)
          h.M h.N h.K (tensorFn a) (tensorFn bIn) pH
          (floatParams st h (effectiveTransA st a) (effectiveTransB st bIn))
          yInit⟩

/-- The generic `MatMul<T>::Compute` (matmul.cc lines 92-127): shapes are
resolved with no transpose flags, there is no packing and no alpha, and each
batch is a plain matrix multiply `C = A · B` (`math::MatMul<T>`), here
encoded as a descriptor with `alpha = 1`, `beta = 0`, `lda = K`, `ldb = N`,
`ldc = N`.  `genericParams` is the per-batch call list of the loop in
matmul.cc lines 115-124. -/
def genericParams (h : ResolvedDesc) : List SgemmParams :=
  (List.range h.outputOffsets.length).map (fun i =>
    { BIsPacked := false
      Aoff := h.leftOffsets.getD i 0
      lda := h.K
      B := BPtr.raw (h.rightOffsets.getD i 0)
      ldb := h.N
      Coff := h.outputOffsets.getD i 0
      ldc := h.N
      alpha := 1
      beta := 0 : SgemmParams })

def genericCompute (a bIn : TensorI) (yInit : Nat → Int) :
    Except MErr FloatResult :=
  match helperCompute a.shape bIn.shape false false with
  | .error e => .error e
  | .ok h =>
    if h.outputShape.prod = 0 then
      .ok ⟨h, false, false, h.outputShape, [], yInit⟩
    else
      .ok ⟨h, false, false, h.outputShape, genericParams h,
        mlasGemmBatch false false h.M h.N h.K (tensorFn a) (tensorFn bIn)
          (fun _ _ _ => 0) (genericParams h) yInit⟩

/-- The numeric element types the operator is registered for
(matmul.cc lines 13-90). -/
inductive ElemType
  | f32
  | f64
  | i32
  | u32
  | i64
  | u64
deriving DecidableEq, Repr

/-- Kernel dispatch per element type, from the registrations in matmul.cc:
only `float` is bound to the specialized `MatMul<float>::Compute`; `double`
and the four integer types are bound to the generic template
`MatMul<T>::Compute` (uint32/uint64 share the int32/int64 bodies). -/
def computeKernel (t : ElemType) (st : KernelState) (a bIn : TensorI)
    (yInit : Nat → Int) (pH : Nat → Nat → Nat → Int) :
    Except MErr FloatResult :=
  match t with
  | .f32 => floatCompute st a bIn yInit pH
  | .f64 => genericCompute a bIn yInit
  | .i32 => genericCompute a bIn yInit
  | .u32 => genericCompute a bIn yInit
  | .i64 => genericCompute a bIn yInit
  | .u64 => genericCompute a bIn yInit

/-- The output buffer of a Compute result at position `j` (0 on error). -/
def outAt (x : Except MErr FloatResult) (j : Nat) : Int :=
  match x with
  | .ok r => r.output j
  | .error _ => 0

/-- The shared `PrepackedWeight` caching record: parallel lists of buffers,
shapes and element counts, plus the filled flag. -/
structure PrepackedWeight where
  buffers : List BufferPtr
  shapes : List (List Nat)
  weights_sizes : List Nat
  is_filled : Bool
deriving DecidableEq, Repr

/-- Result of a `PrePack` call. -/
structure PrePackResult where
  status : Status
  is_packed : Bool
  state : KernelState
  cache : Option PrepackedWeight
deriving DecidableEq, Repr

/-- `MatMul<float>::PrePack` (matmul.cc lines 129-147).  The external pack
primitive `GemmPackBFp32` is modelled at its interface by `packResult`:
`some (addr, shp)` when it succeeds, producing an owned packed buffer at
`addr` and recording the B shape `shp`; `none` when it declines.  Only input
index 1 is ever packed; when a caching record is supplied and packing
succeeded, the owned buffer together with its shape and element count is
moved into the record, the record is marked filled, and the instance keeps a
non-owning alias to the record's first buffer. -/
def prePack (st : KernelState) (input_idx : Int)
    (packResult : Option (Nat × List Nat)) (cache : Option PrepackedWeight) :
    PrePackResult :=
  if input_idx = 1 then
    match packResult with
    | none => ⟨.ok, false, st, cache⟩
    | some (addr, shp) =>
      let st1 : KernelState :=
        { st with packed_b := some ⟨addr, true⟩, b_shape := shp }
      match cache with
      | none => ⟨.ok, true, st1, none⟩
      | some c =>
        let c1 : PrepackedWeight :=
          { buffers := c.buffers ++ [⟨addr, true⟩]
            shapes := c.shapes ++ [shp]
            weights_sizes := c.weights_sizes ++ [shp.prod]
            is_filled := true }
        let alias0 := (c1.buffers.getD 0 ⟨addr, true⟩).addr
        ⟨.ok, true, { st1 with packed_b := some ⟨alias0, false⟩ }, some c1⟩
  else ⟨.ok, false, st, cache⟩

/-- Result of a `UseCachedPrePackedWeight` call. -/
structure UseCachedResult where
  status : Status
  read_from_cache : Bool
  state : KernelState
deriving DecidableEq, Repr

/-- `MatMul<float>::UseCachedPrePackedWeight` (matmul.cc lines 149-162).
For input index 1 it reads `buffers_[0]` and `shapes_[0]` of the cached
record unconditionally; `none` models the out-of-bounds access performed
when the record is empty.  The stored alias has a null deleter
(`owning = false`). -/
def useCachedPrePackedWeight (st : KernelState) (cached : PrepackedWeight)
    (input_idx : Int) : Option UseCachedResult :=
  if input_idx = 1 then
    match cached.buffers[0]?, cached.shapes[0]? with
    | some buf, some shp =>
        some ⟨.ok, true,
          { st with packed_b := some ⟨buf.addr, false⟩, b_shape := shp }⟩
    | _, _ => none
  else some ⟨.ok, false, st⟩

/-! Concrete inputs shared by counterexamples and witnesses. -/

/-- Zero-initialized output buffer. -/
def yZero : Nat → Int := fun _ => 0

/-- Zero packed-buffer heap. -/
def pHZero : Nat → Nat → Nat → Int := fun _ _ _ => 0

/-- 1-by-1 tensor holding the single value 1. -/
def tOne : TensorI := ⟨[1, 1], [1]⟩

/-- Kernel state with alpha attribute 2, no transpose, nothing packed. -/
def stAlpha2 : KernelState := ⟨false, false, 2, none, []⟩

/-- Kernel state with alpha attribute 1, no transpose, nothing packed. -/
def stPlain : KernelState := ⟨false, false, 1, none, []⟩

/-- A filled one-entry caching record at abstract address 7, shape [2, 2]. -/
def cacheW : PrepackedWeight := ⟨[⟨7, true⟩], [[2, 2]], [4], true⟩

/-- Extract the ok value of a shape resolution (fallback: zero descriptor). -/
def rdOf (x : Except MErr ResolvedDesc) : ResolvedDesc :=
  match x with
  | .ok r => r
  | .error _ => ⟨0, 0, 0, [], [], [], [], []⟩

/-- A tensor with shape [0, 2]: zero rows, so the matmul output is empty. -/
def tEmptyA : TensorI := ⟨[0, 2], []⟩

/-- A 2-by-3 tensor. -/
def tB23 : TensorI := ⟨[2, 3], [1, 2, 3, 4, 5, 6]⟩

/-- The resolved descriptor of the empty-output witness shapes. -/
def rdEmptyW : ResolvedDesc := rdOf (helperCompute [0, 2] [2, 3] false false)

/-- Extract the ok value of a Compute run (fallback: trivial result). -/
def frOf (x : Except MErr FloatResult) : FloatResult :=
  match x with
  | .ok r => r
  | .error _ => ⟨⟨0, 0, 0, [], [], [], [], []⟩, false, false, [], [], yZero⟩

/-- Kernel state with both transpose attributes set, nothing packed. -/
def stTrans : KernelState := ⟨true, true, 1, none, []⟩

/-- The vector [1, 2, 3]. -/
def tVec3a : TensorI := ⟨[3], [1, 2, 3]⟩

/-- The vector [4, 5, 6]. -/
def tVec3b : TensorI := ⟨[3], [4, 5, 6]⟩

/-- The matrix [[1, 2], [3, 4]]. -/
def t22a : TensorI := ⟨[2, 2], [1, 2, 3, 4]⟩

/-- The matrix [[5, 6], [7, 8]]. -/
def t22b : TensorI := ⟨[2, 2], [5, 6, 7, 8]⟩

/-- Kernel state whose packed-B field holds a non-owning alias to abstract
address 7 with recorded B shape [2, 2]. -/
def stPacked : KernelState := ⟨false, false, 1, some ⟨7, false⟩, [2, 2]⟩

/-- Output buffer initially filled with ones. -/
def yOne : Nat → Int := fun _ => 1

/-- C1, counterexample: with alpha attribute 2 and both operands the 1x1
matrix [[1]], the registered float64 kernel (the generic template path)
produces output element 1 while the float32 full path instantiated at the
same data produces 2 (the alpha multiplier is applied only on the full
path), so Compute for float64 is not equivalent to the float32 full path. -/
theorem C1_counterexample :
    outAt (computeKernel .f64 stAlpha2 tOne tOne yZero pHZero) 0 = 1 ∧
    outAt (floatCompute stAlpha2 tOne tOne yZero pHZero) 0 = 2 ∧
    ¬ outAt (computeKernel .f64 stAlpha2 tOne tOne yZero pHZero) 0 =
        outAt (floatCompute stAlpha2 tOne tOne yZero pHZero) 0 := by
  refine ⟨?_, ?_, ?_⟩ <;> decide

/-- C1 (amended): only float32 is dispatched to the full path
(`MatMul<float>::Compute`, with transpose attributes, alpha and packing);
float64 and the four 32/64-bit integer types are all dispatched to the plain
per-batch offset/broadcast path (the generic `MatMul<T>::Compute`, which
ignores the kernel state, applies no transpose attributes and no alpha, and
never packs), so Compute for float64 equals the generic path, not the
float32 full path instantiated at double. -/
theorem C1_dispatch_amended :
    computeKernel .f32 = floatCompute ∧
    (∀ st a b y pH, computeKernel .f64 st a b y pH = genericCompute a b y) ∧
    (∀ st a b y pH, computeKernel .i32 st a b y pH = genericCompute a b y) ∧
    (∀ st a b y pH, computeKernel .u32 st a b y pH = genericCompute a b y) ∧
    (∀ st a b y pH, computeKernel .i64 st a b y pH = genericCompute a b y) ∧
    (∀ st a b y pH, computeKernel .u64 st a b y pH = genericCompute a b y) :=
  ⟨rfl, fun _ _ _ _ _ => rfl, fun _ _ _ _ _ => rfl, fun _ _ _ _ _ => rfl,
    fun _ _ _ _ _ => rfl, fun _ _ _ _ _ => rfl⟩

/-- C7: PrePack always returns success; `is_packed` is true exactly when the
input index is 1 and the pack primitive succeeds; and whenever nothing got
packed (on an instance that had nothing packed before), the instance state
still has no packed buffer, so Compute takes the raw-operand path (the raw B
shape is the one used). -/
theorem C7_prepack_total (st : KernelState) (idx : Int)
    (packResult : Option (Nat × List Nat)) (cache : Option PrepackedWeight)
    (hnp : st.packed_b = none) :
    (prePack st idx packResult cache).status = .ok ∧
    ((prePack st idx packResult cache).is_packed = true ↔
      idx = 1 ∧ packResult.isSome = true) ∧
    ((prePack st idx packResult cache).is_packed = false →
      (prePack st idx packResult cache).state.packed_b = none ∧
      ∀ b : TensorI,
        usedBShape (prePack st idx packResult cache).state b = b.shape) := by
  unfold prePack
  by_cases h1 : idx = 1
  · cases packResult with
    | none => simp [h1, hnp, usedBShape]
    | some pr =>
      cases cache with
      | none => simp [h1]
      | some c => simp [h1]
  · simp [h1, hnp, usedBShape]

/-- C7 witness: a concrete PrePack call on input index 0. -/
theorem C7_witness :
    (prePack stPlain 0 (some (7, [2, 2])) none).status = .ok ∧
    ((prePack stPlain 0 (some (7, [2, 2])) none).is_packed = true ↔
      (0 : Int) = 1 ∧ (some (7, [2, 2]) : Option (Nat × List Nat)).isSome = true) ∧
    ((prePack stPlain 0 (some (7, [2, 2])) none).is_packed = false →
      (prePack stPlain 0 (some (7, [2, 2])) none).state.packed_b = none ∧
      ∀ b : TensorI,
        usedBShape (prePack stPlain 0 (some (7, [2, 2])) none).state b
          = b.shape) :=
  C7_prepack_total stPlain 0 (some (7, [2, 2])) none rfl

/-- C8: when PrePack succeeds on input index 1 and a (fresh, empty) caching
record is supplied, the owned packed buffer is moved into the record
together with its shape and element count, the record is marked filled, and
the instance afterwards holds only a non-owning alias (`owning = false`,
the null deleter) to the buffer now owned by the record. -/
theorem C8_prepack_cache_donation (st : KernelState) (addr : Nat)
    (shp : List Nat) (c : PrepackedWeight) (hb : c.buffers = [])
    (hs : c.shapes = []) (hw : c.weights_sizes = []) :
    prePack st 1 (some (addr, shp)) (some c) =
      ⟨.ok, true,
        { st with packed_b := some ⟨addr, false⟩, b_shape := shp },
        some ⟨[⟨addr, true⟩], [shp], [shp.prod], true⟩⟩ := by
  unfold prePack
  simp [hb, hs, hw]

/-- C8 witness: a concrete donation into an empty record. -/
theorem C8_witness :
    prePack stPlain 1 (some (7, [2, 2])) (some ⟨[], [], [], false⟩) =
      ⟨.ok, true,
        { stPlain with packed_b := some ⟨7, false⟩, b_shape := [2, 2] },
        some ⟨[⟨7, true⟩], [[2, 2]], [(4 : Nat)], true⟩⟩ := by
  have h := C8_prepack_cache_donation stPlain 7 [2, 2] ⟨[], [], [], false⟩
    rfl rfl rfl
  simpa using h

/-- C9: UseCachedPrePackedWeight on input index 1 returns success with
`read_from_cache = true`, stores a non-owning alias (`owning = false`) to
the record's first packed buffer in `packed_b_`, records the cached shape as
the instance's B shape, and leaves the record untouched (the alias carries
no deleter, so the instance can never deallocate the cached buffer). -/
theorem C9_use_cached_adoption (st : KernelState) (c : PrepackedWeight)
    (buf : BufferPtr) (shp : List Nat) (hb : c.buffers[0]? = some buf)
    (hs : c.shapes[0]? = some shp) :
    useCachedPrePackedWeight st c 1 =
      some ⟨.ok, true,
        { st with packed_b := some ⟨buf.addr, false⟩, b_shape := shp }⟩ := by
  unfold useCachedPrePackedWeight
  simp [hb, hs]

/-- C9 witness: concrete adoption from a one-entry record. -/
theorem C9_witness :
    useCachedPrePackedWeight stPlain cacheW 1 =
      some ⟨.ok, true,
        { stPlain with packed_b := some ⟨7, false⟩, b_shape := [2, 2] }⟩ := by
  have h := C9_use_cached_adoption stPlain cacheW ⟨7, true⟩ [2, 2] rfl rfl
  simpa using h

/-- C10: UseCachedPrePackedWeight on input index 1 reads the record's first
buffer and first shape unconditionally — on an empty record the access is
out of bounds (modelled as `none`); whenever the record holds at least one
buffer and at least one shape the accesses are in bounds and the call always
returns success with `read_from_cache = true` (no error branch exists). -/
theorem C10_unchecked_first_access :
    (∀ st : KernelState,
      useCachedPrePackedWeight st ⟨[], [], [], false⟩ 1 = none) ∧
    (∀ (st : KernelState) (c : PrepackedWeight),
      c.buffers ≠ [] → c.shapes ≠ [] →
      ∃ res, useCachedPrePackedWeight st c 1 = some res ∧
        res.status = .ok ∧ res.read_from_cache = true) := by
  constructor
  · intro st
    unfold useCachedPrePackedWeight
    simp
  · intro st c hb hs
    unfold useCachedPrePackedWeight
    cases hcb : c.buffers with
    | nil => exact absurd hcb hb
    | cons b bs =>
      cases hcs : c.shapes with
      | nil => exact absurd hcs hs
      | cons s ss =>
        refine ⟨⟨.ok, true,
          { st with packed_b := some ⟨b.addr, false⟩, b_shape := s }⟩,
          ?_, rfl, rfl⟩
        simp [hcb, hcs]

/-- C10 witness: a concrete in-bounds adoption. -/
theorem C10_witness :
    ∃ res, useCachedPrePackedWeight stPlain cacheW 1 = some res ∧
      res.status = .ok ∧ res.read_from_cache = true :=
  C10_unchecked_first_access.2 stPlain cacheW (by decide) (by decide)


/-- Inversion of a successful `floatCompute` run: the resolution it
performed, the effective flags it stored, and its descriptor list and
output buffer in the empty and non-empty cases. -/
theorem floatCompute_ok_inv (st : KernelState) (a b : TensorI)
    (y : Nat → Int) (pH : Nat → Nat → Nat → Int) (r : FloatResult)
    (h : floatCompute st a b y pH = .ok r) :
    helperCompute a.shape (usedBShape st b) (effectiveTransA st a)
        (effectiveTransB st b) = .ok r.resolved ∧
    r.effTransA = effectiveTransA st a ∧
    r.effTransB = effectiveTransB st b ∧
    r.outputShape = r.resolved.outputShape ∧
    (r.resolved.outputShape.prod = 0 → r.params = [] ∧ r.output = y) ∧
    (r.resolved.outputShape.prod ≠ 0 →
      r.params = floatParams st r.resolved (effectiveTransA st a)
        (effectiveTransB st b) ∧
      r.output = mlasGemmBatch (effectiveTransA st a) (effectiveTransB st b)
        r.resolved.M r.resolved.N r.resolved.K (tensorFn a) (tensorFn b) pH
        r.params y) := by
  unfold floatCompute at h
  split at h
  · exact absurd h (by simp)
  · rename_i hd hh
    split at h
    · rename_i hz
      injection h with h2
      subst h2
      exact ⟨hh, rfl, rfl, rfl, fun _ => ⟨rfl, rfl⟩, fun hnz => absurd hz hnz⟩
    · rename_i hz
      injection h with h2
      subst h2
      exact ⟨hh, rfl, rfl, rfl, fun hz0 => absurd hz0 hz, fun _ => ⟨rfl, rfl⟩⟩

/-- Inversion of a successful `genericCompute` run. -/
theorem genericCompute_ok_inv (a b : TensorI) (y : Nat → Int)
    (r : FloatResult) (h : genericCompute a b y = .ok r) :
    helperCompute a.shape b.shape false false = .ok r.resolved ∧
    r.effTransA = false ∧
    r.effTransB = false ∧
    r.outputShape = r.resolved.outputShape ∧
    (r.resolved.outputShape.prod = 0 → r.params = [] ∧ r.output = y) ∧
    (r.resolved.outputShape.prod ≠ 0 →
      r.params = genericParams r.resolved ∧
      r.output = mlasGemmBatch false false r.resolved.M r.resolved.N
        r.resolved.K (tensorFn a) (tensorFn b) (fun _ _ _ => 0)
        r.params y) := by
  unfold genericCompute at h
  split at h
  · exact absurd h (by simp)
  · rename_i hd hh
    split at h
    · rename_i hz
      injection h with h2
      subst h2
      exact ⟨hh, rfl, rfl, rfl, fun _ => ⟨rfl, rfl⟩, fun hnz => absurd hz hnz⟩
    · rename_i hz
      injection h with h2
      subst h2
      exact ⟨hh, rfl, rfl, rfl, fun hz0 => absurd hz0 hz, fun _ => ⟨rfl, rfl⟩⟩

/-- C6: the effective transpose flags of a successful float Compute run
(the flags passed to shape resolution and used for the GEMM leading
dimensions) are the attributes masked for 1-D operands: the A flag is false
whenever A has rank 1 and the B flag is false whenever the used (raw or
recorded) B shape has rank 1, regardless of the attribute values. -/
theorem C6_vector_transpose_ignored (st : KernelState) (a b : TensorI)
    (y : Nat → Int) (pH : Nat → Nat → Nat → Int) (r : FloatResult)
    (h : floatCompute st a b y pH = .ok r) :
    r.effTransA = (st.trans_a_attr && !(a.shape.length = 1)) ∧
    r.effTransB = (st.trans_b_attr && !((usedBShape st b).length = 1)) ∧
    helperCompute a.shape (usedBShape st b) r.effTransA r.effTransB =
      .ok r.resolved ∧
    (a.shape.length = 1 → r.effTransA = false) ∧
    ((usedBShape st b).length = 1 → r.effTransB = false) := by
  obtain ⟨hres, hA, hB, -, -, -⟩ := floatCompute_ok_inv st a b y pH r h
  refine ⟨hA, hB, by rw [hA, hB]; exact hres, ?_, ?_⟩
  · intro h1
    rw [hA]
    simp [effectiveTransA, h1]
  · intro h1
    rw [hB]
    simp [effectiveTransB, h1]

/-- C6 witness: rank-1 times rank-1 with both transpose attributes set. -/
theorem C6_witness :
    (frOf (floatCompute stTrans tVec3a tVec3b yZero pHZero)).effTransA =
      (stTrans.trans_a_attr && !(tVec3a.shape.length = 1)) ∧
    (frOf (floatCompute stTrans tVec3a tVec3b yZero pHZero)).effTransB =
      (stTrans.trans_b_attr && !((usedBShape stTrans tVec3b).length = 1)) ∧
    helperCompute tVec3a.shape (usedBShape stTrans tVec3b)
        (frOf (floatCompute stTrans tVec3a tVec3b yZero pHZero)).effTransA
        (frOf (floatCompute stTrans tVec3a tVec3b yZero pHZero)).effTransB =
      .ok (frOf (floatCompute stTrans tVec3a tVec3b yZero pHZero)).resolved ∧
    (tVec3a.shape.length = 1 →
      (frOf (floatCompute stTrans tVec3a tVec3b yZero pHZero)).effTransA =
        false) ∧
    ((usedBShape stTrans tVec3b).length = 1 →
      (frOf (floatCompute stTrans tVec3a tVec3b yZero pHZero)).effTransB =
        false) :=
  C6_vector_transpose_ignored stTrans tVec3a tVec3b yZero pHZero
    (frOf (floatCompute stTrans tVec3a tVec3b yZero pHZero)) rfl

/-- C4: whenever shape resolution succeeds with an output shape of zero
total elements, Compute returns success with the output tensor of that
shape, an empty descriptor list (the GEMM dispatch is skipped), and the
output buffer untouched — on the float path and on the generic path. -/
theorem C4_empty_output_short_circuit (st : KernelState) (a b : TensorI)
    (y : Nat → Int) (pH : Nat → Nat → Nat → Int) (h1 h2 : ResolvedDesc)
    (hres : helperCompute a.shape (usedBShape st b) (effectiveTransA st a)
      (effectiveTransB st b) = .ok h1)
    (hz : h1.outputShape.prod = 0)
    (hresG : helperCompute a.shape b.shape false false = .ok h2)
    (hzG : h2.outputShape.prod = 0) :
    floatCompute st a b y pH =
      .ok ⟨h1, effectiveTransA st a, effectiveTransB st b, h1.outputShape,
        [], y⟩ ∧
    genericCompute a b y =
      .ok ⟨h2, false, false, h2.outputShape, [], y⟩ := by
  constructor
  · unfold floatCompute
    rw [hres]
    simp [hz]
  · unfold genericCompute
    rw [hresG]
    simp [hzG]

/-- C4 witness: shapes [0, 2] x [2, 3] resolve to the empty output [0, 3]. -/
theorem C4_witness :
    floatCompute stPlain tEmptyA tB23 yZero pHZero =
      .ok ⟨rdEmptyW, effectiveTransA stPlain tEmptyA,
        effectiveTransB stPlain tB23, rdEmptyW.outputShape, [], yZero⟩ ∧
    genericCompute tEmptyA tB23 yZero =
      .ok ⟨rdEmptyW, false, false, rdEmptyW.outputShape, [], yZero⟩ :=
  C4_empty_output_short_circuit stPlain tEmptyA tB23 yZero pHZero
    rdEmptyW rdEmptyW rfl (by decide) rfl (by decide)

/-- Element `i` of the float descriptor list, written out. -/
theorem floatParams_getD (st : KernelState) (hd : ResolvedDesc) (tA tB : Bool)
    (i : Nat) (hi : i < (floatParams st hd tA tB).length) :
    (floatParams st hd tA tB).getD i pZero =
      { BIsPacked := st.packed_b.isSome
        Aoff := hd.leftOffsets.getD i 0
        lda := if tA then hd.M else hd.K
        B := match st.packed_b with
             | some pb => BPtr.packed pb.addr
             | none => BPtr.raw (hd.rightOffsets.getD i 0)
        ldb := if tB then hd.K else hd.N
        Coff := hd.outputOffsets.getD i 0
        ldc := hd.N
        alpha := st.alpha_attr
        beta := 0 : SgemmParams } := by
  unfold floatParams at hi ⊢
  simp only [List.length_map, List.length_range] at hi
  simp [List.getD_eq_getElem?_getD, List.getElem?_map, List.getElem?_range, hi]

/-- C3: every per-batch descriptor of a successful float Compute run has
A pointer A + leftOffsets[i], leading dimension K (or M when A is
transposed); B leading dimension N (or K when B is transposed); output
pointer Y + outputOffsets[i] with leading dimension N; and scalar
multiplier equal to the alpha attribute. -/
theorem C3_descriptor_fields (st : KernelState) (a b : TensorI)
    (y : Nat → Int) (pH : Nat → Nat → Nat → Int) (r : FloatResult)
    (h : floatCompute st a b y pH = .ok r) (i : Nat)
    (hi : i < r.params.length) :
    (r.params.getD i pZero).Aoff = r.resolved.leftOffsets.getD i 0 ∧
    (r.params.getD i pZero).lda =
      (if r.effTransA then r.resolved.M else r.resolved.K) ∧
    (r.params.getD i pZero).ldb =
      (if r.effTransB then r.resolved.K else r.resolved.N) ∧
    (r.params.getD i pZero).Coff = r.resolved.outputOffsets.getD i 0 ∧
    (r.params.getD i pZero).ldc = r.resolved.N ∧
    (r.params.getD i pZero).alpha = st.alpha_attr := by
  obtain ⟨-, hA, hB, -, hzero, hnz⟩ := floatCompute_ok_inv st a b y pH r h
  by_cases hz : r.resolved.outputShape.prod = 0
  · obtain ⟨hp, -⟩ := hzero hz
    rw [hp] at hi
    simp at hi
  · obtain ⟨hp, -⟩ := hnz hz
    rw [hp] at hi ⊢
    rw [floatParams_getD st r.resolved _ _ i hi, hA, hB]
    refine ⟨rfl, rfl, rfl, rfl, rfl, rfl⟩

/-- C3 witness: the single descriptor of a concrete 2x2 times 2x2 run. -/
theorem C3_witness :
    ((frOf (floatCompute stPlain t22a t22b yZero pHZero)).params.getD 0
        pZero).Aoff =
      (frOf (floatCompute stPlain t22a t22b yZero
        pHZero)).resolved.leftOffsets.getD 0 0 ∧
    ((frOf (floatCompute stPlain t22a t22b yZero pHZero)).params.getD 0
        pZero).lda =
      (if (frOf (floatCompute stPlain t22a t22b yZero pHZero)).effTransA then
        (frOf (floatCompute stPlain t22a t22b yZero pHZero)).resolved.M
      else (frOf (floatCompute stPlain t22a t22b yZero pHZero)).resolved.K) ∧
    ((frOf (floatCompute stPlain t22a t22b yZero pHZero)).params.getD 0
        pZero).ldb =
      (if (frOf (floatCompute stPlain t22a t22b yZero pHZero)).effTransB then
        (frOf (floatCompute stPlain t22a t22b yZero pHZero)).resolved.K
      else (frOf (floatCompute stPlain t22a t22b yZero pHZero)).resolved.N) ∧
    ((frOf (floatCompute stPlain t22a t22b yZero pHZero)).params.getD 0
        pZero).Coff =
      (frOf (floatCompute stPlain t22a t22b yZero
        pHZero)).resolved.outputOffsets.getD 0 0 ∧
    ((frOf (floatCompute stPlain t22a t22b yZero pHZero)).params.getD 0
        pZero).ldc =
      (frOf (floatCompute stPlain t22a t22b yZero pHZero)).resolved.N ∧
    ((frOf (floatCompute stPlain t22a t22b yZero pHZero)).params.getD 0
        pZero).alpha = stPlain.alpha_attr :=
  C3_descriptor_fields stPlain t22a t22b yZero pHZero
    (frOf (floatCompute stPlain t22a t22b yZero pHZero)) rfl 0 (by decide)

/-- A descriptor whose B pointer is a packed buffer never reads the raw-B
input function. -/
theorem applyParam_packed_bF (tA tB : Bool) (M N K : Nat)
    (aF bF bG : Nat → Int) (pH : Nat → Nat → Nat → Int) (p : SgemmParams)
    (y : Nat → Int) (ad : Nat) (hp : p.B = BPtr.packed ad) :
    applyParam tA tB M N K aF bF pH p y =
      applyParam tA tB M N K aF bG pH p y := by
  funext j
  unfold applyParam
  cases hg : gemmPos M N p.ldc p.Coff j with
  | none => rfl
  | some mn =>
    obtain ⟨m, n⟩ := mn
    simp [hp]

/-- A GEMM batch whose descriptors all point at packed buffers never reads
the raw-B input function. -/
theorem mlasGemmBatch_packed_bF (tA tB : Bool) (M N K : Nat)
    (aF bF bG : Nat → Int) (pH : Nat → Nat → Nat → Int)
    (ps : List SgemmParams) (y : Nat → Int)
    (hp : ∀ p ∈ ps, ∃ ad, p.B = BPtr.packed ad) :
    mlasGemmBatch tA tB M N K aF bF pH ps y =
      mlasGemmBatch tA tB M N K aF bG pH ps y := by
  induction ps generalizing y with
  | nil => rfl
  | cons p rest ih =>
    obtain ⟨ad, had⟩ := hp p (List.mem_cons_self p rest)
    show mlasGemmBatch tA tB M N K aF bF pH rest
        (applyParam tA tB M N K aF bF pH p y) = _
    rw [applyParam_packed_bF tA tB M N K aF bF bG pH p y ad had]
    exact ih _ (fun q hq => hp q (List.mem_cons_of_mem p hq))

/-- With `packed_b_` set, every assembled descriptor is marked packed and
points at the packed buffer. -/
theorem floatParams_packed (st : KernelState) (hd : ResolvedDesc)
    (tA tB : Bool) (pb : BufferPtr) (hp : st.packed_b = some pb) :
    ∀ p ∈ floatParams st hd tA tB,
      p.BIsPacked = true ∧ p.B = BPtr.packed pb.addr := by
  intro p hmem
  unfold floatParams at hmem
  obtain ⟨i, -, rfl⟩ := List.mem_map.mp hmem
  simp [hp]

/-- C2: once `packed_b_` is set, Compute never reads the raw B input
tensor: shape resolution uses the B shape recorded at pack time, the whole
run is unchanged when the raw B input is replaced by any other tensor, and
every per-batch descriptor's B pointer is the single packed buffer
(`rightOffsets` ignored). -/
theorem C2_packed_not_read (st : KernelState) (pb : BufferPtr)
    (hp : st.packed_b = some pb) (a b b2 : TensorI) (y : Nat → Int)
    (pH : Nat → Nat → Nat → Int) :
    usedBShape st b = st.b_shape ∧
    floatCompute st a b y pH = floatCompute st a b2 y pH ∧
    (∀ r, floatCompute st a b y pH = .ok r →
      ∀ p ∈ r.params, p.BIsPacked = true ∧ p.B = BPtr.packed pb.addr) := by
  have hub : usedBShape st b = st.b_shape := by unfold usedBShape; rw [hp]
  have hub2 : usedBShape st b2 = st.b_shape := by unfold usedBShape; rw [hp]
  have heB : effectiveTransB st b = effectiveTransB st b2 := by
    unfold effectiveTransB
    rw [hub, hub2]
  refine ⟨hub, ?_, ?_⟩
  · unfold floatCompute
    rw [hub, hub2, heB]
    cases hh : helperCompute a.shape st.b_shape (effectiveTransA st a)
        (effectiveTransB st b2) with
    | error e => rfl
    | ok hd =>
      by_cases hz : hd.outputShape.prod = 0
      · simp [hz]
      · simp only [hz, if_neg]
        rw [mlasGemmBatch_packed_bF (effectiveTransA st a)
          (effectiveTransB st b2) hd.M hd.N hd.K (tensorFn a) (tensorFn b)
          (tensorFn b2) pH _ y
          (fun q hq => ⟨pb.addr, (floatParams_packed st hd _ _ pb hp q hq).2⟩)]
  · intro r hr p hmem
    obtain ⟨-, -, -, -, hzero, hnz⟩ := floatCompute_ok_inv st a b y pH r hr
    by_cases hz : r.resolved.outputShape.prod = 0
    · obtain ⟨hpar, -⟩ := hzero hz
      rw [hpar] at hmem
      exact absurd hmem (List.not_mem_nil p)
    · obtain ⟨hpar, -⟩ := hnz hz
      rw [hpar] at hmem
      exact floatParams_packed st r.resolved _ _ pb hp p hmem

/-- C2 witness: a packed instance run against two different raw B inputs. -/
theorem C2_witness :
    usedBShape stPacked t22b = stPacked.b_shape ∧
    floatCompute stPacked t22a t22b yZero pHZero =
      floatCompute stPacked t22a tVec3a yZero pHZero ∧
    (∀ r, floatCompute stPacked t22a t22b yZero pHZero = .ok r →
      ∀ p ∈ r.params, p.BIsPacked = true ∧ p.B = BPtr.packed 7) :=
  C2_packed_not_read stPacked ⟨7, false⟩ rfl t22a t22b tVec3a yZero pHZero

/-- A successful shape resolution produces output offsets that are exactly
`i * (M * N)` for each batch index `i`, and an output element count equal to
the batch count times `M * N` (the vector cases contribute a factor 1 for
the collapsed dimension). -/
theorem helperCompute_ok_spec (sa sb : List Nat) (ta tb : Bool)
    (hd : ResolvedDesc) (h : helperCompute sa sb ta tb = .ok hd) :
    hd.outputOffsets =
      (List.range hd.batchDims.prod).map (fun i => i * (hd.M * hd.N)) ∧
    hd.outputShape.prod = hd.batchDims.prod * (hd.M * hd.N) := by
  unfold helperCompute at h
  split at h
  · exact Except.noConfusion h
  · dsimp only at h
    cases ta <;> cases tb <;> by_cases ha : sa.length = 1 <;>
      by_cases hb : sb.length = 1
    all_goals try obtain ⟨a0, rfl⟩ := List.length_eq_one.mp ha
    all_goals try obtain ⟨b0, rfl⟩ := List.length_eq_one.mp hb
    all_goals simp only [ha, hb, List.length_singleton, List.length_cons,
      List.length_append, List.length_nil, decide_True, decide_False,
      Bool.not_true, Bool.not_false, Bool.and_false, Bool.and_true,
      Bool.true_and, Bool.false_and, Bool.false_eq_true, List.getD,
      List.cons_append, List.nil_append, reduceIte, if_true, if_false] at h
    all_goals split at h
    all_goals try exact Except.noConfusion h
    all_goals split at h
    all_goals try exact Except.noConfusion h
    all_goals injection h with h2
    all_goals subst h2
    all_goals refine ⟨rfl, ?_⟩
    all_goals simp [List.prod_append, mul_assoc, mul_comm, mul_left_comm]

/-- A descriptor leaves every output position outside its region unchanged. -/
theorem applyParam_uncovered (tA tB : Bool) (M N K : Nat)
    (aF bF : Nat → Int) (pH : Nat → Nat → Nat → Int) (p : SgemmParams)
    (y : Nat → Int) (j : Nat) (h : gemmPos M N p.ldc p.Coff j = none) :
    applyParam tA tB M N K aF bF pH p y j = y j := by
  unfold applyParam
  rw [h]

/-- With `beta = 0`, the value a descriptor writes inside its region does
not depend on the prior buffer contents. -/
theorem applyParam_covered_beta0 (tA tB : Bool) (M N K : Nat)
    (aF bF : Nat → Int) (pH : Nat → Nat → Nat → Int) (p : SgemmParams)
    (y y2 : Nat → Int) (j : Nat) (hb : p.beta = 0)
    (hc : (gemmPos M N p.ldc p.Coff j).isSome = true) :
    applyParam tA tB M N K aF bF pH p y j =
      applyParam tA tB M N K aF bF pH p y2 j := by
  obtain ⟨mn, hmn⟩ := Option.isSome_iff_exists.mp hc
  obtain ⟨m, n⟩ := mn
  unfold applyParam
  rw [hmn]
  simp [hb]

/-- A GEMM batch leaves every position outside all descriptor regions
unchanged. -/
theorem mlasGemmBatch_uncovered (tA tB : Bool) (M N K : Nat)
    (aF bF : Nat → Int) (pH : Nat → Nat → Nat → Int)
    (ps : List SgemmParams) (y : Nat → Int) (j : Nat)
    (h : ∀ p ∈ ps, gemmPos M N p.ldc p.Coff j = none) :
    mlasGemmBatch tA tB M N K aF bF pH ps y j = y j := by
  induction ps generalizing y with
  | nil => rfl
  | cons p rest ih =>
    show mlasGemmBatch tA tB M N K aF bF pH rest
        (applyParam tA tB M N K aF bF pH p y) j = y j
    rw [ih _ (fun q hq => h q (List.mem_cons_of_mem p hq))]
    exact applyParam_uncovered tA tB M N K aF bF pH p y j
      (h p (List.mem_cons_self p rest))

/-- When every descriptor has `beta = 0`, a GEMM batch produces the same
value at every position covered by some descriptor, whatever the initial
buffer contents. -/
theorem mlasGemmBatch_agree (tA tB : Bool) (M N K : Nat)
    (aF bF : Nat → Int) (pH : Nat → Nat → Nat → Int)
    (ps : List SgemmParams) (y y2 : Nat → Int) (j : Nat)
    (hb : ∀ p ∈ ps, p.beta = 0)
    (hc : ∃ p ∈ ps, (gemmPos M N p.ldc p.Coff j).isSome = true) :
    mlasGemmBatch tA tB M N K aF bF pH ps y j =
      mlasGemmBatch tA tB M N K aF bF pH ps y2 j := by
  induction ps generalizing y y2 with
  | nil =>
    obtain ⟨p, hp, -⟩ := hc
    exact absurd hp (List.not_mem_nil p)
  | cons p rest ih =>
    show mlasGemmBatch tA tB M N K aF bF pH rest
        (applyParam tA tB M N K aF bF pH p y) j = mlasGemmBatch tA tB M N K
        aF bF pH rest (applyParam tA tB M N K aF bF pH p y2) j
    by_cases hrest : ∃ q ∈ rest, (gemmPos M N q.ldc q.Coff j).isSome = true
    · exact ih _ _ (fun q hq => hb q (List.mem_cons_of_mem p hq)) hrest
    · push_neg at hrest
      have hnone : ∀ q ∈ rest, gemmPos M N q.ldc q.Coff j = none := by
        intro q hq
        have := hrest q hq
        simpa [Option.not_isSome_iff_eq_none] using this
      rw [mlasGemmBatch_uncovered tA tB M N K aF bF pH rest _ j hnone,
        mlasGemmBatch_uncovered tA tB M N K aF bF pH rest _ j hnone]
      obtain ⟨q, hq, hqs⟩ := hc
      rcases List.mem_cons.mp hq with heq | hqr
      · rw [heq] at hqs
        exact applyParam_covered_beta0 tA tB M N K aF bF pH p y y2 j
          (hb p (List.mem_cons_self p rest)) hqs
      · exact absurd hqs (by simp [hnone q hqr])

/-- Every assembled float descriptor has `beta = 0` (matmul.cc line 204). -/
theorem floatParams_beta0 (st : KernelState) (hd : ResolvedDesc)
    (tA tB : Bool) : ∀ p ∈ floatParams st hd tA tB, p.beta = 0 := by
  intro p hmem
  unfold floatParams at hmem
  obtain ⟨i, -, rfl⟩ := List.mem_map.mp hmem
  rfl

/-- Every output position below the total element count is covered by some
descriptor of the batch (descriptor `j / (M * N)`). -/
theorem floatParams_cover (st : KernelState) (hd : ResolvedDesc)
    (tA tB : Bool)
    (houts : hd.outputOffsets =
      (List.range hd.batchDims.prod).map (fun i => i * (hd.M * hd.N)))
    (j : Nat) (hj : j < hd.batchDims.prod * (hd.M * hd.N)) :
    ∃ p ∈ floatParams st hd tA tB,
      (gemmPos hd.M hd.N p.ldc p.Coff j).isSome = true := by
  have hQ : 0 < hd.M * hd.N := by
    rcases Nat.eq_zero_or_pos (hd.M * hd.N) with h0 | h
    · rw [h0, Nat.mul_zero] at hj
      exact absurd hj (Nat.not_lt_zero j)
    · exact h
  have hN : 0 < hd.N := by
    rcases Nat.eq_zero_or_pos hd.N with h0 | h
    · rw [h0, Nat.mul_zero] at hQ
      exact absurd hQ (lt_irrefl 0)
    · exact h
  have hi : j / (hd.M * hd.N) < hd.batchDims.prod :=
    (Nat.div_lt_iff_lt_mul hQ).mpr hj
  have hlen : hd.outputOffsets.length = hd.batchDims.prod := by
    rw [houts]
    simp
  refine ⟨(floatParams st hd tA tB).getD (j / (hd.M * hd.N)) pZero, ?_, ?_⟩
  · have hlt : j / (hd.M * hd.N) < (floatParams st hd tA tB).length := by
      unfold floatParams
      simp [hlen, hi]
    have := List.getD_eq_getElem (floatParams st hd tA tB) pZero hlt
    rw [this]
    exact List.getElem_mem _
  · have hlt : j / (hd.M * hd.N) < (floatParams st hd tA tB).length := by
      unfold floatParams
      simp [hlen, hi]
    rw [floatParams_getD st hd tA tB _ hlt]
    have hcoff : hd.outputOffsets.getD (j / (hd.M * hd.N)) 0 =
        (j / (hd.M * hd.N)) * (hd.M * hd.N) := by
      rw [houts]
      simp [List.getD_eq_getElem?_getD, List.getElem?_map,
        List.getElem?_range, hi]
    unfold gemmPos
    rw [hcoff]
    have hle : (j / (hd.M * hd.N)) * (hd.M * hd.N) ≤ j :=
      Nat.div_mul_le_self j (hd.M * hd.N)
    have hsub : j - (j / (hd.M * hd.N)) * (hd.M * hd.N) =
        j % (hd.M * hd.N) := by
      have h1 := Nat.div_add_mod' j (hd.M * hd.N)
      omega
    have hmodlt : j % (hd.M * hd.N) < hd.M * hd.N := Nat.mod_lt j hQ
    have hdiv : (j % (hd.M * hd.N)) / hd.N < hd.M :=
      (Nat.div_lt_iff_lt_mul hN).mpr hmodlt
    rw [if_pos]
    · rfl
    · refine ⟨hle, hN, ?_, ?_⟩
      · rw [hsub]
        exact hdiv
      · rw [hsub]
        exact Nat.mod_lt _ hN

/-- C5: every per-batch descriptor of a float Compute run has accumulation
multiplier (beta) 0, and two runs on the same inputs that differ only in
the pre-existing contents of the output buffer produce identical output
elements — the output never depends on prior buffer contents. -/
theorem C5_beta_zero_no_prior_dependence (st : KernelState) (a b : TensorI)
    (y y2 : Nat → Int) (pH : Nat → Nat → Nat → Int) (r r2 : FloatResult)
    (h1 : floatCompute st a b y pH = .ok r)
    (h2 : floatCompute st a b y2 pH = .ok r2) :
    (∀ p ∈ r.params, p.beta = 0) ∧
    (∀ j, j < r.outputShape.prod → r.output j = r2.output j) := by
  obtain ⟨hres, hA, hB, hsh, hzero, hnz⟩ :=
    floatCompute_ok_inv st a b y pH r h1
  obtain ⟨hres2, -, -, hsh2, hzero2, hnz2⟩ :=
    floatCompute_ok_inv st a b y2 pH r2 h2
  rw [hres] at hres2
  injection hres2 with he
  refine ⟨?_, ?_⟩
  · by_cases hz : r.resolved.outputShape.prod = 0
    · rw [(hzero hz).1]
      intro p hp
      exact absurd hp (List.not_mem_nil p)
    · rw [(hnz hz).1]
      exact floatParams_beta0 st r.resolved _ _
  · intro j hj
    rw [hsh] at hj
    by_cases hz : r.resolved.outputShape.prod = 0
    · rw [hz] at hj
      exact absurd hj (Nat.not_lt_zero j)
    · obtain ⟨hp1, hout1⟩ := hnz hz
      have hz2 : r2.resolved.outputShape.prod ≠ 0 := by
        rw [← he]
        exact hz
      obtain ⟨hp2, hout2⟩ := hnz2 hz2
      rw [← he] at hp2 hout2
      obtain ⟨houts, hprod⟩ :=
        helperCompute_ok_spec a.shape (usedBShape st b) (effectiveTransA st a)
          (effectiveTransB st b) r.resolved hres
      have hj2 : j < r.resolved.batchDims.prod *
          (r.resolved.M * r.resolved.N) := by
        rw [← hprod]
        exact hj
      have hcov := floatParams_cover st r.resolved (effectiveTransA st a)
        (effectiveTransB st b) houts j hj2
      rw [hp1] at hout1
      rw [hp2] at hout2
      rw [hout1, hout2]
      exact mlasGemmBatch_agree (effectiveTransA st a) (effectiveTransB st b)
        r.resolved.M r.resolved.N r.resolved.K (tensorFn a) (tensorFn b) pH
        (floatParams st r.resolved (effectiveTransA st a)
          (effectiveTransB st b)) y y2 j
        (floatParams_beta0 st r.resolved _ _) hcov

/-- C5 witness: the same 2x2 multiply over a zeroed and an all-ones initial
output buffer. -/
theorem C5_witness :
    (∀ p ∈ (frOf (floatCompute stPlain t22a t22b yZero pHZero)).params,
      p.beta = 0) ∧
    (∀ j, j < (frOf (floatCompute stPlain t22a t22b yZero
        pHZero)).outputShape.prod →
      (frOf (floatCompute stPlain t22a t22b yZero pHZero)).output j =
        (frOf (floatCompute stPlain t22a t22b yOne pHZero)).output j) :=
  C5_beta_zero_no_prior_dependence stPlain t22a t22b yZero yOne pHZero
    (frOf (floatCompute stPlain t22a t22b yZero pHZero))
    (frOf (floatCompute stPlain t22a t22b yOne pHZero)) rfl rfl
